import Mathlib

/-
Verification of the flake resolution and locking core (src/libexpr/flake/flake.cc,
src/libfetchers/fetchers.cc) against its natural-language specification.

The C++ sources are shallowly embedded as executable Lean definitions:
std::map / FlakeInputs values become association lists iterated in map order
(keys are unique), exceptions become Except, and the mutable solver state
(the parents stack, the updatesUsed set, emitted warnings) is threaded
explicitly.  Recursion through the input graph, which in the source is bounded
only by the CircularImport check, takes an explicit fuel parameter; running out
of fuel yields a distinguished error that occurs in no theorem below.
-/

/-- A flake reference: either a direct reference (scheme-specific key plus
whether its attributes pin a unique revision) or an indirect registry
reference with an id.  Two references compare equal iff all attributes
match, which the abstract key models. -/
inductive FlakeRef where
  | direct (key : String) (immutable : Bool)
  | indirect (id : String)
deriving DecidableEq

/-- FlakeRef.input.isDirect(): indirect references must be resolved first. -/
def FlakeRef.isDirect : FlakeRef → Bool
  | .direct _ _ => true
  | .indirect _ => false

/-- FlakeRef.input.isImmutable(): whether the reference pins a unique revision.
An indirect reference never does. -/
def FlakeRef.isImmutable : FlakeRef → Bool
  | .direct _ imm => imm
  | .indirect _ => false

/-- An input path: ordered sequence of input ids locating a node in the lock
graph (InputPath in the source). -/
abbrev InputPath := List String

/-- Errors of the locking core, one constructor per throw site the embedding
reaches (spec section 7).  outOfFuel is an artifact of the fueled embedding. -/
inductive Err where
  | registryLookupDisallowed
  | mutableInPureMode
  | circularImport
  | assertFailed
  | hashMismatch
  | danglingFollows
  | lockChangesDisallowed
  | lockWriteDidNotTakeEffect
  | cannotWriteLockFile
  | experimentalFeatureDisabled
  | fetchFailure
  | outOfFuel
deriving DecidableEq

/-- A declared flake input (FlakeInput in flake.hh): optional reference,
is-flake flag (default true), optional follows path, nested overrides for the
input's own inputs, and the absolute marker set on follows entries that
originate from an override. -/
inductive FlakeInput where
  | mk (ref : Option FlakeRef) (flk : Bool) (fol : Option InputPath)
       (ovs : List (String × FlakeInput)) (abs : Bool)

/-- The ref field of a FlakeInput. -/
def FlakeInput.ref : FlakeInput → Option FlakeRef
  | .mk r _ _ _ _ => r

/-- The isFlake field of a FlakeInput. -/
def FlakeInput.isFlake : FlakeInput → Bool
  | .mk _ f _ _ _ => f

/-- The follows field of a FlakeInput. -/
def FlakeInput.follows : FlakeInput → Option InputPath
  | .mk _ _ f _ _ => f

/-- The overrides field of a FlakeInput. -/
def FlakeInput.overrides : FlakeInput → List (String × FlakeInput)
  | .mk _ _ _ o _ => o

/-- The absolute field of a FlakeInput. -/
def FlakeInput.absolute : FlakeInput → Bool
  | .mk _ _ _ _ a => a

/-- A default-constructed FlakeInput(): no ref, isFlake = true, no follows,
no overrides, not absolute. -/
def FlakeInput.defaultInput : FlakeInput := .mk none true none [] false

/-- Replace the ref field (input.ref = ...). -/
def FlakeInput.withRef : FlakeInput → FlakeRef → FlakeInput
  | .mk _ f fo o a, r => .mk (some r) f fo o a

/-- Replace the overrides field. -/
def FlakeInput.withOverrides : FlakeInput → List (String × FlakeInput) → FlakeInput
  | .mk r f fo _ a, o => .mk r f fo o a

/-- Association-list lookup, first match; models std::map find (keys unique). -/
def lookupA {α : Type} : List (String × α) → String → Option α
  | [], _ => none
  | (k, v) :: rest, key => if k == key then some v else lookupA rest key

/-- std::map emplace: insert only if the key is absent. -/
def emplaceA {α : Type} (l : List (String × α)) (k : String) (v : α) :
    List (String × α) :=
  match lookupA l k with
  | some _ => l
  | none => l ++ [(k, v)]

/-- std::map insert_or_assign: replace in place if present, append otherwise. -/
def insertA {α : Type} : List (String × α) → String → α → List (String × α)
  | [], k, v => [(k, v)]
  | (k0, v0) :: rest, k, v =>
      if k0 == k then (k, v) :: rest else (k0, v0) :: insertA rest k v

/-- std::map extract: remove the entry for a key, returning it (if any) and
the remaining map. -/
def extractA {α : Type} : List (String × α) → String → Option α × List (String × α)
  | [], _ => (none, [])
  | (k0, v0) :: rest, k =>
      if k0 == k then (some v0, rest)
      else
        let p := extractA rest k
        (p.fst, (k0, v0) :: p.snd)

/-- setOverride (flake.cc): walk an input path through the override tree,
default-constructing missing nodes, and set the ref of the final node,
preserving whatever else is already there. -/
def setOverride : List (String × FlakeInput) → InputPath → FlakeRef →
    List (String × FlakeInput)
  | ovs, [], _ => ovs
  | ovs, [x], r =>
      let cur := (lookupA ovs x).getD FlakeInput.defaultInput
      insertA ovs x (cur.withRef r)
  | ovs, x :: y :: rest, r =>
      let cur := (lookupA ovs x).getD FlakeInput.defaultInput
      insertA ovs x (cur.withOverrides (setOverride cur.overrides (y :: rest) r))

mutual

/-- FlakeInput::setOverrides applied to one extracted entry: if the incoming
child carries a ref it replaces the existing ref, then the children are merged
recursively (flake.cc, setOverrides). -/
def FlakeInput.applyNew : FlakeInput → FlakeInput → FlakeInput
  | existing, .mk cref _ _ covs _ =>
      let e1 := match cref with
        | some r => existing.withRef r
        | none => existing
      e1.withOverrides (mergeOverrides e1.overrides covs)

/-- FlakeInput::setOverrides (flake.cc): merge the second override map into
the first; entries with a matching key are merged entry-wise, new entries are
moved over unchanged. -/
def mergeOverrides : List (String × FlakeInput) → List (String × FlakeInput) →
    List (String × FlakeInput)
  | ovs, [] => ovs
  | ovs, (id, child) :: restNew =>
      let ovs1 := match lookupA ovs id with
        | some existing => insertA ovs id (existing.applyNew child)
        | none => ovs ++ [(id, child)]
      mergeOverrides ovs1 restNew

end

/-- Modelled from the spec: printInputPath renders an input path for
diagnostics.  The exact rendering lives outside the provided sources; only
that distinct-looking strings result matters to the claims. -/
def printInputPath (p : InputPath) : String := String.intercalate "/" p

/-- Modelled from the spec: the diagnostic rendering of a flake reference
(operator<< on FlakeRef, outside the provided sources). -/
def printRef : FlakeRef → String
  | .direct key _ => key
  | .indirect id => "flake:" ++ id

mutual

/-- The loop of printOverrides (flake.cc): fold over the entries of one level,
appending "path=ref" for entries that carry a ref and the recursively printed
children when they are nonempty, with ", " separators tracked by the first
flag exactly as in the source. -/
def printOvsGo : List (String × FlakeInput) → InputPath → String → Bool → String
  | [], _, acc, _ => acc
  | (id, ov) :: rest, pfxPath, acc, first =>
      let ipath := pfxPath ++ [id]
      let acc1 := match ov.ref with
        | some r =>
            acc ++ (if first then "" else ", ") ++ printInputPath ipath ++ "=" ++ printRef r
        | none => acc
      let first1 := match ov.ref with
        | some _ => false
        | none => first
      let children := printOvsEntry ov ipath
      let acc2 := if children == "" then acc1
        else acc1 ++ (if first1 then "" else ", ") ++ children
      let first2 := if children == "" then first1 else false
      printOvsGo rest pfxPath acc2 first2

/-- The recursive call printOverrides(override.second.overrides, inputPath)
made for each entry, starting a fresh stream. -/
def printOvsEntry : FlakeInput → InputPath → String
  | .mk _ _ _ oovs _, ipath => printOvsGo oovs ipath "" true

end

/-- printOverrides (flake.cc): render all override entries that carry a ref,
at any depth, as a comma-separated list of path=ref items. -/
def printOverrides (ovs : List (String × FlakeInput)) (pfxPath : InputPath) : String :=
  printOvsGo ovs pfxPath "" true

/-- A lock graph edge (lockfile.hh): either a LockedNode, owning the locked
reference, the preserved original reference, the is-flake flag and its own
child edges, or a follows edge pointing at an input path elsewhere in the
graph.  A node is its association list of edges; the root node has no
references of its own. -/
inductive Edge where
  | locked (lockedRef originalRef : FlakeRef) (isFlake : Bool)
           (inputs : List (String × Edge))
  | follows (target : InputPath)

/-- A lock node: the child edges keyed by input id. -/
abbrev Node := List (String × Edge)

mutual

/-- Modelled from the spec: structural equality of lock graphs
(LockFile::operator==, lockfile.cc, outside the provided sources).  Equality
is structural over locked refs, original refs, is-flake flags, follows
targets and children. -/
def lockEqEdge : Edge → Edge → Bool
  | .locked l1 o1 f1 i1, .locked l2 o2 f2 i2 =>
      l1 == l2 && o1 == o2 && f1 == f2 && lockEqNode i1 i2
  | .follows t1, .follows t2 => t1 == t2
  | _, _ => false

/-- Modelled from the spec: structural equality of lock nodes. -/
def lockEqNode : Node → Node → Bool
  | [], [] => true
  | (k1, e1) :: r1, (k2, e2) :: r2 => k1 == k2 && lockEqEdge e1 e2 && lockEqNode r1 r2
  | _, _ => false

end

mutual

/-- Modelled from the spec: LockFile::isImmutable (lockfile.cc, outside the
provided sources): every LockedNode's locked reference is immutable. -/
def isImmutableEdge : Edge → Bool
  | .locked lr _ _ inputs => lr.isImmutable && isImmutableNode inputs
  | .follows _ => true

/-- Modelled from the spec: a node is immutable iff all its edges are. -/
def isImmutableNode : Node → Bool
  | [] => true
  | (_, e) :: rest => isImmutableEdge e && isImmutableNode rest

end

mutual

/-- Modelled from the spec: all follows targets occurring anywhere in a
node's subtree (used by LockFile::check, lockfile.cc, outside the provided
sources). -/
def followsTargetsNode : Node → List InputPath
  | [] => []
  | (_, e) :: rest => followsTargetsEdge e ++ followsTargetsNode rest

/-- Modelled from the spec: follows targets of one edge and its subtree. -/
def followsTargetsEdge : Edge → List InputPath
  | .locked _ _ _ inputs => followsTargetsNode inputs
  | .follows t => [t]

end

/-- Modelled from the spec: resolve an input path from the root of the lock
graph, descending through locked edges and chasing follows edges from the
root; fueled because follows chains may loop. -/
def resolvePath (root : Node) : Nat → Node → InputPath → Bool
  | _, _, [] => true
  | fuel, node, x :: rest =>
      match lookupA node x with
      | none => false
      | some (.locked _ _ _ children) => resolvePath root fuel children rest
      | some (.follows tgt) =>
          match fuel with
          | 0 => false
          | n + 1 => resolvePath root n root (tgt ++ rest)

/-- Modelled from the spec: LockFile::check — every follows edge must resolve
to an existing node in the graph. -/
def checkLock (fuel : Nat) (root : Node) : Bool :=
  (followsTargetsNode root).all (fun t => resolvePath root fuel root t)

/-- A fetched source tree handle, as far as the cache and the narHash assert
observe it (fetchers::Tree restricted to the fields flake.cc reads). -/
structure STree where
  storePath : String
  actualPath : String
deriving DecidableEq

/-- FetchedFlake: a fetched tree together with the fully locked reference. -/
abbrev FetchedFlake := STree × FlakeRef

/-- The per-solve fetch cache: a linear list of (reference, fetched) pairs
(FlakeCache in flake.cc). -/
abbrev FlakeCache := List (FlakeRef × FetchedFlake)

/-- lookupInFlakeCache (flake.cc): scan the cache in insertion order and
return the first entry whose key equals the reference. -/
def lookupInFlakeCache : FlakeCache → FlakeRef → Option FetchedFlake
  | [], _ => none
  | (k, v) :: rest, r => if k == r then some v else lookupInFlakeCache rest r

/-- The external collaborators of fetchOrSubstituteTree: the scheme-level
fetcher, registry resolution, and the store operations behind the final
assert.  Within one solve they are deterministic functions of the
reference. -/
structure FetchEnv where
  fetchTree : FlakeRef → Except Err FetchedFlake
  resolve : FlakeRef → Except Err FlakeRef
  getNarHash : FlakeRef → Option Nat
  computeStorePath : FlakeRef → String

/-- The assert at the end of fetchOrSubstituteTree (flake.cc): if the original
reference carried an expected NAR hash, the fetched store path must equal the
recomputed fixed-output path. -/
def narHashAssert (env : FetchEnv) (originalRef : FlakeRef) (t : STree) : Bool :=
  match env.getNarHash originalRef with
  | none => true
  | some _ => t.storePath == env.computeStorePath originalRef

/-- fetchOrSubstituteTree (flake.cc): consult the cache under the original
reference; on a miss, fetch a direct reference outright, and for an indirect
reference resolve it, consult the cache again — the source looks the original
reference up a second time here, not the resolved one — fetch on a miss, and
record entries under both the resolved and the original key.  The third result
component instruments the embedding with the list of references actually
passed to the scheme-level fetcher, so that claims about "no second fetch"
can be stated; it changes no computed value. -/
def fetchOrSubstituteTree (env : FetchEnv) (originalRef : FlakeRef)
    (allowLookup : Bool) (flakeCache : FlakeCache) :
    Except Err ((STree × FlakeRef × FlakeRef) × FlakeCache × List FlakeRef) :=
  match lookupInFlakeCache flakeCache originalRef with
  | some fv =>
      if narHashAssert env originalRef fv.fst then
        .ok ((fv.fst, originalRef, fv.snd), flakeCache, [])
      else .error .assertFailed
  | none =>
      if originalRef.isDirect then
        match env.fetchTree originalRef with
        | .error e => .error e
        | .ok fv =>
            if narHashAssert env originalRef fv.fst then
              .ok ((fv.fst, originalRef, fv.snd),
                   flakeCache ++ [(originalRef, fv)], [originalRef])
            else .error .assertFailed
      else if allowLookup then
        match env.resolve originalRef with
        | .error e => .error e
        | .ok resolvedRef =>
            match lookupInFlakeCache flakeCache originalRef with
            | some fv =>
                if narHashAssert env originalRef fv.fst then
                  .ok ((fv.fst, resolvedRef, fv.snd),
                       flakeCache ++ [(resolvedRef, fv), (originalRef, fv)], [])
                else .error .assertFailed
            | none =>
                match env.fetchTree resolvedRef with
                | .error e => .error e
                | .ok fv =>
                    if narHashAssert env originalRef fv.fst then
                      .ok ((fv.fst, resolvedRef, fv.snd),
                           flakeCache ++ [(resolvedRef, fv), (originalRef, fv)],
                           [resolvedRef])
                    else .error .assertFailed
      else .error .registryLookupDisallowed

/-- A fetched tree as fetchers.cc sees it: real path, store path, and the
optional NAR hash in its info. -/
structure FTree where
  actualPath : String
  storePath : String
  narHash : Option Nat
deriving DecidableEq

/-- The scheme-independent part of a fetchers::Input that Input::fetchTree
reads: the optional expected NAR hash. -/
structure FInput where
  narHash : Option Nat
deriving DecidableEq

/-- The external collaborators of Input::fetchTree: whether ensurePath
succeeds for the substituted path, the store path arithmetic, the
scheme-level fetchTreeInternal result, and the store's path info. -/
structure TreeEnv where
  substOk : Bool
  makeFixedOutputPath : Nat → String
  toRealPath : String → String
  internal : Except Err (FTree × FInput)
  queryNarHash : String → Nat

/-- Input::substituteTree (fetchers.cc): assert the expected hash is present,
ensure the fixed-output path, and return a tree whose info hash is exactly
the expected hash. -/
def substituteTree (env : TreeEnv) (inp : FInput) : Except Err FTree :=
  match inp.narHash with
  | none => .error .assertFailed
  | some h =>
      if env.substOk then
        let storePath := env.makeFixedOutputPath h
        .ok { actualPath := env.toRealPath storePath, storePath := storePath,
              narHash := some h }
      else .error .fetchFailure

/-- Input::fetchTree (fetchers.cc): try substitution when an expected hash is
declared, swallowing its failure; otherwise fetch through the scheme, fill in
a missing actual path and a missing info hash from the store, assert the
result input's hash matches the tree's, and reject a mismatch against the
declared expected hash. -/
def fetchTreeModel (env : TreeEnv) (inp : FInput) :
    Except Err (FTree × Option FInput) :=
  let sub : Option FTree :=
    match inp.narHash with
    | some _ =>
        match substituteTree env inp with
        | .ok t => some t
        | .error _ => none
    | none => none
  match sub with
  | some t => .ok (t, none)
  | none =>
      match env.internal with
      | .error e => .error e
      | .ok (tree0, input2) =>
          let tree1 := if tree0.actualPath == "" then
              { tree0 with actualPath := env.toRealPath tree0.storePath }
            else tree0
          let tree2 := match tree1.narHash with
            | none => { tree1 with narHash := some (env.queryNarHash tree1.storePath) }
            | some _ => tree1
          if input2.narHash.isSome && !(input2.narHash == tree2.narHash) then
            .error .assertFailed
          else if inp.narHash.isSome && !(inp.narHash == input2.narHash) then
            .error .hashMismatch
          else .ok (tree2, some input2)

/-- Modelled from the spec: parseFlakeRef on a bare input id yields the
default indirect reference with that id (the parser itself lives outside the
provided sources; flake.cc builds the same reference explicitly via
FlakeRef::fromAttrs with type indirect). -/
def parseFlakeRefId (id : String) : FlakeRef := .indirect id

/-- The outputs-formals injection in getFlake (flake.cc): for every formal
parameter of the outputs function other than self, emplace — insert only if
absent — a declared input whose ref is the default indirect reference named
after the parameter. -/
def injectOutputsFormals : List (String × FlakeInput) → List String →
    List (String × FlakeInput)
  | inputs, [] => inputs
  | inputs, name :: rest =>
      injectOutputsFormals
        (if name == "self" then inputs
         else emplaceA inputs name
           (FlakeInput.mk (some (parseFlakeRefId name)) true none [] false))
        rest

/-- The parsed manifest as the solver consumes it (Flake in flake.hh):
the three reference forms, the declared inputs, and the root of the flake's
own flake.lock (empty when the file is absent, as LockFile::read returns an
empty root then). -/
structure Flake where
  originalRef : FlakeRef
  resolvedRef : FlakeRef
  lockedRef : FlakeRef
  inputs : List (String × FlakeInput)
  lockRoot : Node

/-- The external collaborators of the solver: getFlake (manifest loader,
taking the allow-lookup flag and a reference) and fetchOrSubstituteTree
reduced to the locked reference it yields for non-flake inputs.  Within one
solve these are deterministic functions of the reference, so the fetch cache
threading of the source is value-invisible here. -/
structure SolveEnv where
  getFlake : Bool → FlakeRef → Except Err Flake
  fetchTreeRef : Bool → FlakeRef → Except Err FlakeRef

/-- The lock flags (LockFlags in flake.hh). -/
structure LockFlags where
  updateLockFile : Bool
  writeLockFile : Bool
  useRegistries : Bool
  allowMutable : Bool
  commitLockFile : Bool
  recreateLockFile : Bool
  inputOverrides : List (InputPath × FlakeRef)
  inputUpdates : List InputPath

/-- The solver state captured by reference in computeLocks: the parents stack
for cycle detection, the set of input paths consumed by --update-input flags,
and the warnings emitted so far. -/
structure SolveState where
  parents : List FlakeRef
  updatesUsed : List InputPath
  warnings : List String

/-- std::set count as membership on the model's path list. -/
def pathMem (s : List InputPath) (p : InputPath) : Bool :=
  s.any (fun u => u == p)

/-- std::set insert: add the path unless already present. -/
def insertPath (s : List InputPath) (p : InputPath) : List InputPath :=
  if pathMem s p then s else s ++ [p]

/-- Lexicographic comparison of input paths, as std::vector operator< does. -/
def listLt : InputPath → InputPath → Bool
  | [], [] => false
  | [], _ :: _ => true
  | _ :: _, [] => false
  | a :: as2, b :: bs => if a < b then true else if b < a then false else listLt as2 bs

/-- std::set lower_bound on the sorted update list: the first element not
less than the key. -/
def lowerBound : List InputPath → InputPath → Option InputPath
  | [], _ => none
  | u :: rest, key => if listLt u key then lowerBound rest key else some u

/-- std::equal over the first range: the first list is an elementwise
initial segment of the second. -/
def eqPfxOf : InputPath → InputPath → Bool
  | [], _ => true
  | _ :: _, [] => false
  | a :: as2, b :: bs => a == b && eqPfxOf as2 bs

/-- The --update-input child test in the reuse path (flake.cc): the
lower bound of the current input path in the update set is a strictly longer
path extending it. -/
def hasChildUpdate (updates : List InputPath) (inputPath : InputPath) : Bool :=
  match lowerBound updates inputPath with
  | none => false
  | some lb => decide (inputPath.length < lb.length) && eqPfxOf inputPath lb

/-- The old-lock lookup in computeLocks (flake.cc): an entry is available
when an old node exists, no --update-input flag names this exact path, and
the old entry under this id is a LockedNode rather than a follows edge. -/
def findOldLock (flags : LockFlags) (oldNode : Option Node) (inputPath : InputPath)
    (id : String) : Option (FlakeRef × FlakeRef × Bool × Node) :=
  match oldNode with
  | none => none
  | some oldInputs =>
      if pathMem flags.inputUpdates inputPath then none
      else
        match lookupA oldInputs id with
        | some (.locked lr orr isf ch) => some (lr, orr, isf, ch)
        | _ => none

/-- The fake inputs map synthesized on the lazy reuse path (flake.cc): each
old locked child becomes a declared input carrying its original ref and
is-flake flag; each old follows edge is copied verbatim and marked
absolute. -/
def mkFakeInputs : Node → List (String × FlakeInput)
  | [] => []
  | (i, .locked _ orr isf _) :: rest =>
      (i, FlakeInput.mk (some orr) isf none [] false) :: mkFakeInputs rest
  | (i, .follows f) :: rest =>
      (i, FlakeInput.mk none true (some f) [] true) :: mkFakeInputs rest

/-- computeLocks (flake.cc): one invocation processes the declared inputs of
one node against the inherited override map, the corresponding old lock node
and the input path so far, producing the node's edges.

The embedding is faithful to the source, including its two defects:

* The local bool hasOverride is declared uninitialized and is written (to
  true) only when an extracted override entry carries a ref.  On every other
  iteration the two reads of hasOverride — in the follows-target choice and
  in the staleness check — read an indeterminate value; the oracle parameter
  supplies the value such a read yields.

* In the fresh flake path the source builds the LockedNode from
  originalInput.ref when set, else input.ref; since input is declared as a
  reference aliasing originalInput, an applied override is visible through
  originalInput.ref, and both expressions denote the post-override reference,
  which is what this embedding records.

Fuel decreases on every recursive call (into a child's inputs and along the
remaining inputs of this node); the parents stack pop on exit from the fresh
flake path is applied to the recursion's outcome whether it succeeds or
fails, mirroring the Finally scope guard. -/
def computeLocks (env : SolveEnv) (flags : LockFlags) (oracle : Bool) :
    Nat → List (String × FlakeInput) → InputPath → Option Node →
    List (String × FlakeInput) → Node → SolveState →
    SolveState × Except Err Node
  | 0, _, _, _, _, _, st => (st, .error .outOfFuel)
  | Nat.succ _, [], pfxPath, _, ovs, acc, st =>
      let unused := printOverrides ovs pfxPath
      let st1 := if unused == "" then st
        else { st with warnings := st.warnings ++ ["unused override(s): " ++ unused] }
      (st1, .ok acc)
  | Nat.succ n, (id, originalInput) :: rest, pfxPath, oldNode, ovs, acc, st =>
      let inputPath := pfxPath ++ [id]
      let ext := extractA ovs id
      let ovs1 := ext.snd
      let appl : FlakeInput × Option Bool :=
        match ext.fst with
        | none => (originalInput, none)
        | some mo =>
            let base : FlakeInput × Option Bool :=
              match mo.ref with
              | some r => (originalInput.withRef r, some true)
              | none => (originalInput, none)
            (base.fst.withOverrides (mergeOverrides base.fst.overrides mo.overrides),
             base.snd)
      let input := appl.fst
      let hasOverride := appl.snd
      match input.follows with
      | some fol =>
          let target := if hasOverride.getD oracle || input.absolute
            then fol else pfxPath ++ fol
          computeLocks env flags oracle n rest pfxPath oldNode ovs1
            (insertA acc id (.follows target)) st
      | none =>
          match input.ref with
          | none => (st, .error .assertFailed)
          | some iref =>
              let st0 := { st with updatesUsed := insertPath st.updatesUsed inputPath }
              let oldLock := findOldLock flags oldNode inputPath id
              let reusable :=
                match oldLock with
                | none => none
                | some d => if d.snd.fst == iref && !(hasOverride.getD oracle)
                    then some d else none
              match reusable with
              | some d =>
                  if hasChildUpdate flags.inputUpdates inputPath then
                    match env.getFlake false d.fst with
                    | .error e => (st0, .error e)
                    | .ok inputFlake =>
                        let res := computeLocks env flags oracle n inputFlake.inputs
                          inputPath (some d.snd.snd.snd) input.overrides [] st0
                        match res.snd with
                        | .error e => (res.fst, .error e)
                        | .ok childInputs =>
                            computeLocks env flags oracle n rest pfxPath oldNode ovs1
                              (insertA acc id
                                (.locked d.fst d.snd.fst d.snd.snd.fst childInputs))
                              res.fst
                  else
                    let res := computeLocks env flags oracle n (mkFakeInputs d.snd.snd.snd)
                      inputPath (some d.snd.snd.snd) input.overrides [] st0
                    match res.snd with
                    | .error e => (res.fst, .error e)
                    | .ok childInputs =>
                        computeLocks env flags oracle n rest pfxPath oldNode ovs1
                          (insertA acc id
                            (.locked d.fst d.snd.fst d.snd.snd.fst childInputs))
                          res.fst
              | none =>
                  if !flags.allowMutable && !iref.isImmutable then
                    (st0, .error .mutableInPureMode)
                  else if input.isFlake then
                    match env.getFlake flags.useRegistries iref with
                    | .error e => (st0, .error e)
                    | .ok inputFlake =>
                        if st0.parents.any (fun p => p == iref) then
                          (st0, .error .circularImport)
                        else
                          let st1 := { st0 with parents := st0.parents ++ [iref] }
                          let baseline := match oldLock with
                            | some d => d.snd.snd.snd
                            | none => inputFlake.lockRoot
                          let res := computeLocks env flags oracle n inputFlake.inputs
                            inputPath (some baseline) input.overrides [] st1
                          let st3 := { res.fst with parents := res.fst.parents.dropLast }
                          match res.snd with
                          | .error e => (st3, .error e)
                          | .ok childInputs =>
                              computeLocks env flags oracle n rest pfxPath oldNode ovs1
                                (insertA acc id
                                  (.locked inputFlake.lockedRef iref true childInputs))
                                st3
                  else
                    match env.fetchTreeRef flags.useRegistries iref with
                    | .error e => (st0, .error e)
                    | .ok lockedRef =>
                        computeLocks env flags oracle n rest pfxPath oldNode ovs1
                          (insertA acc id (.locked lockedRef iref false [])) st0

/-- The external collaborators of lockFlake beyond the solver: the
experimental-feature gate, the top reference's source path, whether a lock
file already exists there, the dirty-tree warning setting, the re-fetch of
the top flake after a lock write, and the revision accessor used by the
commit message warning. -/
structure LockEnv where
  flakesEnabled : Bool
  solve : SolveEnv
  sourcePath : Option String
  lockFileExists : Bool
  warnDirty : Bool
  refetch : Except Err Flake
  revOf : FlakeRef → Option Nat

/-- Externally visible persistence actions of lockFlake. -/
inductive Effect where
  | wroteLockFile (path : String)
  | markedChangedFile (rel : String) (commitMsg : Option String)
  | refetchedTopFlake
deriving DecidableEq

/-- The result of lockFlake: the (possibly re-fetched) flake, the new lock
root, the persistence effects performed, and the warnings emitted. -/
structure LockOutcome where
  flake : Flake
  lockFileRoot : Node
  effects : List Effect
  warnings : List String

/-- The override map built from the inputOverrides flag at the start of
lockFlake (flake.cc). -/
def overridesOfFlags (flags : LockFlags) : List (String × FlakeInput) :=
  flags.inputOverrides.foldl (fun acc ov => setOverride acc ov.fst ov.snd) []

/-- The unused --update-input warnings emitted after the root traversal
(flake.cc): one per update path never visited. -/
def unusedUpdateWarnings (updates used : List InputPath) : List String :=
  updates.filterMap (fun i =>
    if pathMem used i then none
    else some ("the flag --update-input " ++ printInputPath i ++ " does not match any input"))

/-- The initial solver state of lockFlake. -/
def initState : SolveState := { parents := [], updatesUsed := [], warnings := [] }

/-- lockFlake (flake.cc): fetch the top flake, read the lock file adjacent to
it, build the override map, run computeLocks against the old lock root
(ignored under recreateLockFile), warn about unused update flags, check the
follows edges, and persist the new lock only when it differs from the old
one: then, under writeLockFile with a writable source, an immutable new lock
and updateLockFile allowed, write the file, mark the top source changed
(with a commit message when requested), re-fetch the top flake, and fail if
the top tree did not register the change while being mutable.  The diff shown
to the user is display-only and is not modelled beyond the warnings that
carry it. -/
def lockFlakeModel (fuel : Nat) (env : LockEnv) (flags : LockFlags) (oracle : Bool)
    (topRef : FlakeRef) : Except Err LockOutcome :=
  if !env.flakesEnabled then .error .experimentalFeatureDisabled else
  match env.solve.getFlake flags.useRegistries topRef with
  | .error e => .error e
  | .ok flake =>
      let oldRoot := flake.lockRoot
      let res := computeLocks env.solve flags oracle fuel flake.inputs []
        (if flags.recreateLockFile then none else some oldRoot)
        (overridesOfFlags flags) [] initState
      match res.snd with
      | .error e => .error e
      | .ok newRoot =>
          let warns := res.fst.warnings ++
            unusedUpdateWarnings flags.inputUpdates res.fst.updatesUsed
          if !(checkLock fuel newRoot) then .error .danglingFollows
          else if lockEqNode newRoot oldRoot then
            .ok { flake := flake, lockFileRoot := newRoot, effects := [],
                  warnings := warns }
          else if flags.writeLockFile then
            match env.sourcePath with
            | some sp =>
                if !(isImmutableNode newRoot) then
                  .ok { flake := flake, lockFileRoot := newRoot, effects := [],
                        warnings := warns ++
                          (if env.warnDirty
                           then ["will not write lock file because it has a mutable input"]
                           else []) }
                else if !flags.updateLockFile then .error .lockChangesDisallowed
                else
                  let path := sp ++ "/flake.lock"
                  let w1 := warns ++
                    [if env.lockFileExists then "updating lock file" else "creating lock file"]
                  let effs := [Effect.wroteLockFile path,
                    Effect.markedChangedFile "flake.lock"
                      (if flags.commitLockFile then some "lock file changes" else none),
                    Effect.refetchedTopFlake]
                  match env.refetch with
                  | .error e => .error e
                  | .ok flake2 =>
                      let w2 := w1 ++
                        (if flags.commitLockFile && (env.revOf flake2.lockedRef).isSome
                            && !(env.revOf flake.lockedRef == env.revOf flake2.lockedRef)
                         then ["committed new revision"] else [])
                      if flake2.lockedRef == flake.lockedRef
                          && !flake2.lockedRef.isImmutable then
                        .error .lockWriteDidNotTakeEffect
                      else
                        .ok { flake := flake2, lockFileRoot := newRoot,
                              effects := effs, warnings := w2 }
            | none => .error .cannotWriteLockFile
          else
            .ok { flake := flake, lockFileRoot := newRoot, effects := [],
                  warnings := warns ++ ["not writing modified lock file"] }

/-- The getFlake primitive (flake.cc, prim_getFlake): parse the reference,
reject a mutable reference under pure evaluation, then lock with
updateLockFile = false, useRegistries = not pure, allowMutable = not pure
and the remaining flags at their defaults. -/
def primGetFlakeModel (fuel : Nat) (env : LockEnv) (pureEval : Bool)
    (oracle : Bool) (r : FlakeRef) : Except Err LockOutcome :=
  if pureEval && !r.isImmutable then .error .mutableInPureMode
  else lockFlakeModel fuel env
    { updateLockFile := false, writeLockFile := true, useRegistries := !pureEval,
      allowMutable := !pureEval, commitLockFile := false, recreateLockFile := false,
      inputOverrides := [], inputUpdates := [] } oracle r

mutual

/-- The override entries carrying a ref, in the preorder in which
printOverrides visits them, each with its full input path. -/
def collectRefsGo : List (String × FlakeInput) → InputPath → List (InputPath × FlakeRef)
  | [], _ => []
  | (id, ov) :: rest, pfxPath =>
      let ipath := pfxPath ++ [id]
      (match ov.ref with
       | some r => [(ipath, r)]
       | none => []) ++ collectRefsEntry ov ipath ++ collectRefsGo rest pfxPath

/-- Ref-carrying entries in one entry's nested overrides. -/
def collectRefsEntry : FlakeInput → InputPath → List (InputPath × FlakeRef)
  | .mk _ _ _ oovs _, ipath => collectRefsGo oovs ipath

end

/-- One rendered path=ref item of the unused-override warning. -/
def renderEntry (e : InputPath × FlakeRef) : String :=
  printInputPath e.fst ++ "=" ++ printRef e.snd

/-- Comma-joining as the stream-and-first-flag idiom of printOverrides
produces it: a leading ", " before every item except, when the flag is set,
the first. -/
def glue : Bool → List String → String
  | _, [] => ""
  | true, s :: rest => s ++ glue false rest
  | false, s :: rest => ", " ++ s ++ glue false rest

/-- Whether an Except result is a success. -/
def isOkB {α : Type} : Except Err α → Bool
  | .ok _ => true
  | .error _ => false

/-- The edge a solver result records under an id, when it succeeded. -/
def edgeAt (r : SolveState × Except Err Node) (id : String) : Option Edge :=
  match r.snd with
  | .ok n => lookupA n id
  | .error _ => none

/-- The locked reference a solver result records under an id. -/
def lockedRefAt (r : SolveState × Except Err Node) (id : String) : Option FlakeRef :=
  match edgeAt r id with
  | some (.locked lr _ _ _) => some lr
  | _ => none

/-- The original reference a solver result records under an id. -/
def originalRefAt (r : SolveState × Except Err Node) (id : String) : Option FlakeRef :=
  match edgeAt r id with
  | some (.locked _ orr _ _) => some orr
  | _ => none

/-- The follows target a solver result records under an id. -/
def followTargetAt (r : SolveState × Except Err Node) (id : String) : Option InputPath :=
  match edgeAt r id with
  | some (.follows t) => some t
  | _ => none

/-- A solver environment whose collaborators always fail; used where a run
must not fetch at all. -/
def stubEnv : SolveEnv :=
  { getFlake := fun _ _ => .error .fetchFailure,
    fetchTreeRef := fun _ _ => .error .fetchFailure }

/-- The default lock flags: update, write and registries allowed, mutable
allowed, nothing recreated, no overrides or updates. -/
def flagsDefault : LockFlags :=
  { updateLockFile := true, writeLockFile := true, useRegistries := true,
    allowMutable := true, commitLockFile := false, recreateLockFile := false,
    inputOverrides := [], inputUpdates := [] }

/-- C1 scenario: the declared (pre-override) reference of input nixpkgs. -/
def c1declared : FlakeRef := .direct "github:NixOS/nixpkgs/release-21.11" true

/-- C1 scenario: the reference carried by the inherited override. -/
def c1override : FlakeRef := .direct "github:NixOS/nixpkgs/master" true

/-- C1 scenario: the locked reference the fetch of the override yields. -/
def c1locked : FlakeRef := .direct "github:NixOS/nixpkgs/0f316e4" true

/-- C1 scenario: fetching the override reference yields an input flake with
no inputs of its own. -/
def c1env : SolveEnv :=
  { getFlake := fun _ r =>
      if r == c1override then .ok ⟨c1override, c1override, c1locked, [], []⟩
      else .error .fetchFailure,
    fetchTreeRef := fun _ _ => .error .fetchFailure }

/-- C1 scenario: one declared input, nixpkgs at the declared reference. -/
def c1inputs : List (String × FlakeInput) :=
  [("nixpkgs", .mk (some c1declared) true none [] false)]

/-- C1 scenario: the inherited override map replaces nixpkgs's reference. -/
def c1ovs : List (String × FlakeInput) :=
  [("nixpkgs", .mk (some c1override) true none [] false)]

/-- C3 scenario: the declared reference of input dep. -/
def c3declared : FlakeRef := .direct "github:NixOS/nixpkgs/release-21.11" true

/-- C3 scenario: the locked reference the old lock file holds for dep. -/
def c3oldLocked : FlakeRef := .direct "github:NixOS/nixpkgs/aaaaaaa" true

/-- C3 scenario: the locked reference a fresh fetch of dep would yield. -/
def c3newLocked : FlakeRef := .direct "github:NixOS/nixpkgs/bbbbbbb" true

/-- C3 scenario: fetching the declared reference yields a flake with no
inputs, locked at a revision different from the old lock entry. -/
def c3env : SolveEnv :=
  { getFlake := fun _ r =>
      if r == c3declared then .ok ⟨c3declared, c3declared, c3newLocked, [], []⟩
      else .error .fetchFailure,
    fetchTreeRef := fun _ _ => .error .fetchFailure }

/-- C3 scenario: one declared input with no override anywhere. -/
def c3inputs : List (String × FlakeInput) :=
  [("dep", .mk (some c3declared) true none [] false)]

/-- C3 scenario: the old lock has a LockedNode for dep whose original ref
equals the declared ref, so the claim requires reuse. -/
def c3old : Node := [("dep", .locked c3oldLocked c3declared true [])]

/-- C6 scenario: a root-distant input that only declares follows. -/
def c6inputs : List (String × FlakeInput) :=
  [("foo", .mk none true (some ["nixpkgs"]) [] false)]

/-- C2 counterexample: a mutable top-level reference. -/
def c2topRef : FlakeRef := .direct "path:./tree" false

/-- C2 counterexample: the top flake has no inputs and no lock file. -/
def c2flake : Flake := ⟨c2topRef, c2topRef, c2topRef, [], []⟩

/-- C2 counterexample: the manifest loader serves exactly the top flake. -/
def c2solveEnv : SolveEnv :=
  { getFlake := fun _ r => if r == c2topRef then .ok c2flake else .error .fetchFailure,
    fetchTreeRef := fun _ _ => .error .fetchFailure }

/-- C2 counterexample: a writable source directory, flakes enabled. -/
def c2lockEnv : LockEnv :=
  { flakesEnabled := true, solve := c2solveEnv, sourcePath := some "/home/user/tree",
    lockFileExists := false, warnDirty := true, refetch := .error .fetchFailure,
    revOf := fun _ => none }

/-- C2 counterexample: allowMutable is false, everything else default. -/
def c2flags : LockFlags :=
  { updateLockFile := true, writeLockFile := true, useRegistries := true,
    allowMutable := false, commitLockFile := false, recreateLockFile := false,
    inputOverrides := [], inputUpdates := [] }

/-- C2 witness: a mutable input reference. -/
def c2wRef : FlakeRef := .direct "git+https://example.org/repo" false

/-- C5 scenario: reference of flake A. -/
def c5refA : FlakeRef := .direct "git+https://example.org/A" true

/-- C5 scenario: reference of flake B. -/
def c5refB : FlakeRef := .direct "git+https://example.org/B" true

/-- C5 scenario: flake A declares input b at B's reference. -/
def c5flakeA : Flake :=
  ⟨c5refA, c5refA, c5refA, [("b", .mk (some c5refB) true none [] false)], []⟩

/-- C5 scenario: flake B declares input a back at A's reference. -/
def c5flakeB : Flake :=
  ⟨c5refB, c5refB, c5refB, [("a", .mk (some c5refA) true none [] false)], []⟩

/-- C5 scenario: the loader serving the cyclic pair A and B. -/
def c5env : SolveEnv :=
  { getFlake := fun _ r =>
      if r == c5refA then .ok c5flakeA
      else if r == c5refB then .ok c5flakeB
      else .error .fetchFailure,
    fetchTreeRef := fun _ _ => .error .fetchFailure }

/-- C4 scenario: the direct reference already fetched and cached. -/
def c4direct : FlakeRef := .direct "github:numtide/flake-utils" true

/-- C4 scenario: an indirect reference that resolves to the cached direct
reference. -/
def c4indirect : FlakeRef := .indirect "flake-utils"

/-- C4 scenario: the tree the fetcher returns. -/
def c4tree : STree := ⟨"1q2w3e-source", "/nix/store/1q2w3e-source"⟩

/-- C4 scenario: the locked reference the fetcher returns. -/
def c4lockedRef : FlakeRef := .direct "github:numtide/flake-utils/5021eac" true

/-- C4 scenario: fetcher and registry: the indirect name resolves to the
direct reference, which fetches to the tree. -/
def c4env : FetchEnv :=
  { fetchTree := fun r =>
      if r == c4direct then .ok (c4tree, c4lockedRef) else .error .fetchFailure,
    resolve := fun r =>
      if r == c4indirect then .ok c4direct else .error .fetchFailure,
    getNarHash := fun _ => none,
    computeStorePath := fun _ => "" }

/-- C4 scenario: the cache after the direct reference was fetched once. -/
def c4cache : FlakeCache := [(c4direct, (c4tree, c4lockedRef))]

/-- C7 witness: an inputs block that already declares nixpkgs. -/
def c7inputs : List (String × FlakeInput) :=
  [("nixpkgs", .mk (some (.direct "github:NixOS/nixpkgs" true)) true none [] false)]

/-- C7 witness: the outputs function formals. -/
def c7formals : List String := ["self", "nixpkgs", "flake-utils"]

/-- C8 witness: the declared reference of the single input. -/
def c8ref : FlakeRef := .direct "github:NixOS/nixpkgs/release-21.11" true

/-- C8 witness: its locked reference in the existing lock. -/
def c8locked : FlakeRef := .direct "github:NixOS/nixpkgs/1111111" true

/-- C8 witness: the existing lock root, complete and current. -/
def c8oldRoot : Node := [("nixpkgs", .locked c8locked c8ref true [])]

/-- C8 witness: the top reference. -/
def c8topRef : FlakeRef := .direct "git+https://example.org/top" false

/-- C8 witness: the top flake, whose own lock file equals what the solve
will recompute. -/
def c8flake : Flake :=
  ⟨c8topRef, c8topRef, c8topRef,
   [("nixpkgs", .mk (some c8ref) true none [] false)], c8oldRoot⟩

/-- C8 witness: loader serving the top flake. -/
def c8solveEnv : SolveEnv :=
  { getFlake := fun _ r => if r == c8topRef then .ok c8flake else .error .fetchFailure,
    fetchTreeRef := fun _ _ => .error .fetchFailure }

/-- C8 witness: a writable source with an existing lock file. -/
def c8lockEnv : LockEnv :=
  { flakesEnabled := true, solve := c8solveEnv, sourcePath := some "/home/user/top",
    lockFileExists := true, warnDirty := true, refetch := .error .fetchFailure,
    revOf := fun _ => none }

/-- C9 witness: substitution fails, the scheme fetch returns a tree with no
actual path and no info hash, and the store knows the hash 7. -/
def c9env : TreeEnv :=
  { substOk := false, makeFixedOutputPath := fun _ => "fixed",
    toRealPath := fun sp => "/real/" ++ sp,
    internal := .ok (⟨"", "sp", none⟩, ⟨some 7⟩),
    queryNarHash := fun _ => 7 }

/-- C9 witness: the input declares the expected NAR hash 7. -/
def c9inp : FInput := ⟨some 7⟩

/-- C10 scenario: an unconsumed override entry whose whole subtree carries
no ref. -/
def c10ovs : List (String × FlakeInput) :=
  [("ghost", .mk none true none [("x", .mk none true none [] false)] false)]

/-- C1: the claim says a fresh-path LockedNode records as original_ref the
pre-override declared reference.  In the source, input aliases originalInput,
so the applied override overwrites originalInput.ref before the LockedNode is
built: on this run the input nixpkgs is declared at c1declared, overridden to
c1override, and the recorded original ref is the override, not the
declaration — contradicting the claim (and the source's own comment), while
locked_ref does come from the fetch. -/
theorem c1_fresh_path_records_override_as_original :
    lookupA c1inputs "nixpkgs" =
      some (FlakeInput.mk (some c1declared) true none [] false) ∧
    lookupA c1ovs "nixpkgs" =
      some (FlakeInput.mk (some c1override) true none [] false) ∧
    originalRefAt
      (computeLocks c1env flagsDefault false 4 c1inputs [] none c1ovs [] initState)
      "nixpkgs" = some c1override ∧
    lockedRefAt
      (computeLocks c1env flagsDefault false 4 c1inputs [] none c1ovs [] initState)
      "nixpkgs" = some c1locked ∧
    c1override ≠ c1declared := by
  refine ⟨rfl, rfl, rfl, rfl, ?_⟩
  decide

/-- C3: the claim says the solver behaves exactly as if has_override started
out false.  The source leaves hasOverride uninitialized whenever no override
carrying a ref matches; on this run the input dep has a matching old lock
entry and no override at all, yet the recorded locked ref depends on the
value the uninitialized read yields: reading false reuses the old entry,
reading true re-fetches. -/
theorem c3_staleness_depends_on_uninitialized_flag :
    lookupA c3inputs "dep" =
      some (FlakeInput.mk (some c3declared) true none [] false) ∧
    lookupA c3old "dep" = some (.locked c3oldLocked c3declared true []) ∧
    lockedRefAt
      (computeLocks c3env flagsDefault true 4 c3inputs [] (some c3old) [] [] initState)
      "dep" = some c3newLocked ∧
    lockedRefAt
      (computeLocks c3env flagsDefault false 4 c3inputs [] (some c3old) [] [] initState)
      "dep" = some c3oldLocked ∧
    c3newLocked ≠ c3oldLocked := by
  refine ⟨rfl, rfl, rfl, rfl, ?_⟩
  decide

/-- C6: the claim says a non-overridden, non-absolute follows target is
resolved relative to the enclosing flake.  The branch reads the uninitialized
hasOverride: on this run input foo (follows nixpkgs, no override, not
absolute, below prefix parent) gets the root-relative target when the read
yields true and the prefix-relative target when it yields false, so the
recorded edge depends on an undefined read. -/
theorem c6_follows_target_depends_on_uninitialized_flag :
    lookupA c6inputs "foo" =
      some (FlakeInput.mk none true (some ["nixpkgs"]) [] false) ∧
    followTargetAt
      (computeLocks stubEnv flagsDefault true 4 c6inputs ["parent"] none [] [] initState)
      "foo" = some ["nixpkgs"] ∧
    followTargetAt
      (computeLocks stubEnv flagsDefault false 4 c6inputs ["parent"] none [] [] initState)
      "foo" = some ["parent", "nixpkgs"] ∧
    (["nixpkgs"] : InputPath) ≠ ["parent", "nixpkgs"] := by
  refine ⟨rfl, rfl, rfl, ?_⟩
  decide

/-- C4: the claim says an indirect reference is also looked up in the cache
under its resolved reference before fetching.  The source performs the second
lookup under the original reference again, which necessarily misses: on this
run the resolved reference is already cached, yet the fetcher is invoked once
more (the instrumentation log is [c4direct], not empty). -/
theorem c4_resolved_cache_key_not_consulted :
    lookupInFlakeCache c4cache c4direct = some (c4tree, c4lockedRef) ∧
    c4env.resolve c4indirect = .ok c4direct ∧
    fetchOrSubstituteTree c4env c4indirect true c4cache =
      .ok ((c4tree, c4direct, c4lockedRef),
           [(c4direct, (c4tree, c4lockedRef)), (c4direct, (c4tree, c4lockedRef)),
            (c4indirect, (c4tree, c4lockedRef))],
           [c4direct]) ∧
    ([c4direct] : List FlakeRef) ≠ [] := by
  refine ⟨rfl, rfl, rfl, ?_⟩
  decide

/-- C2 counterexample: the claim says lock_flake with allow_mutable = false
and a mutable top reference fails MutableInPureMode.  On this run the top
reference path:./tree is mutable and allowMutable is false, yet lockFlake
returns successfully: the mutable-reference check guards inputs on the fresh
path only, never the top-level reference. -/
theorem c2_mutable_top_reference_not_rejected :
    c2flags.allowMutable = false ∧
    c2topRef.isImmutable = false ∧
    lockFlakeModel 4 c2lockEnv c2flags false c2topRef =
      .ok { flake := c2flake, lockFileRoot := [], effects := [], warnings := [] } ∧
    lockFlakeModel 4 c2lockEnv c2flags false c2topRef ≠
      .error .mutableInPureMode := by
  refine ⟨rfl, rfl, rfl, ?_⟩
  intro h
  have h2 : (Except.ok ⟨c2flake, [], [], []⟩ : Except Err LockOutcome) =
      .error .mutableInPureMode := h
  exact Except.noConfusion h2

theorem lookupA_append {α : Type} (l1 l2 : List (String × α)) (k : String) :
    lookupA (l1 ++ l2) k =
      match lookupA l1 k with
      | some v => some v
      | none => lookupA l2 k := by
  induction l1 with
  | nil => rfl
  | cons hd tl ih =>
      obtain ⟨k0, v0⟩ := hd
      by_cases h : (k0 == k) = true
      · simp [lookupA, h]
      · simp only [List.cons_append, lookupA]
        simp [h, ih]

theorem lookupA_emplaceA_same {α : Type} (l : List (String × α)) (k : String) (v : α) :
    lookupA (emplaceA l k v) k =
      match lookupA l k with
      | some w => some w
      | none => some v := by
  unfold emplaceA
  cases hl : lookupA l k with
  | some w => simp [hl]
  | none => simp [hl, lookupA_append, lookupA]

theorem lookupA_emplaceA_preserve {α : Type} (l : List (String × α)) (k : String)
    (v : α) (k2 : String) (w : α) (h : lookupA l k2 = some w) :
    lookupA (emplaceA l k v) k2 = some w := by
  unfold emplaceA
  cases hl : lookupA l k with
  | some u => exact h
  | none => simp [lookupA_append, h]

theorem lookupA_emplaceA_none_other {α : Type} (l : List (String × α)) (k : String)
    (v : α) (k2 : String) (hne : k ≠ k2) (h : lookupA l k2 = none) :
    lookupA (emplaceA l k v) k2 = none := by
  unfold emplaceA
  cases hl : lookupA l k with
  | some u => exact h
  | none => simp [lookupA_append, h, lookupA, hne]

theorem injectFormals_preserve :
    ∀ (formals : List String) (inputs : List (String × FlakeInput)) (name : String)
      (v : FlakeInput), lookupA inputs name = some v →
      lookupA (injectOutputsFormals inputs formals) name = some v := by
  intro formals
  induction formals with
  | nil =>
      intro inputs name v h
      simpa [injectOutputsFormals] using h
  | cons f t ih =>
      intro inputs name v h
      simp only [injectOutputsFormals]
      by_cases hf : (f == "self") = true
      · simp only [hf, if_pos]
        exact ih _ _ _ h
      · simp only [hf, Bool.false_eq_true, if_neg, if_false]
        exact ih _ _ _ (lookupA_emplaceA_preserve _ _ _ _ _ h)

theorem injectFormals_default :
    ∀ (formals : List String) (inputs : List (String × FlakeInput)) (name : String),
      name ∈ formals → name ≠ "self" → lookupA inputs name = none →
      lookupA (injectOutputsFormals inputs formals) name =
        some (FlakeInput.mk (some (parseFlakeRefId name)) true none [] false) := by
  intro formals
  induction formals with
  | nil =>
      intro inputs name hmem
      cases hmem
  | cons f t ih =>
      intro inputs name hmem hself hnone
      simp only [injectOutputsFormals]
      by_cases hf : (f == "self") = true
      · have hfs : f = "self" := by simpa using hf
        have hmem2 : name ∈ t := by
          cases hmem with
          | head => exact absurd hfs hself
          | tail _ hm => exact hm
        simp only [hf, if_pos]
        exact ih _ _ hmem2 hself hnone
      · simp only [hf, Bool.false_eq_true, if_neg, if_false]
        by_cases heq : f = name
        · subst heq
          have h1 : lookupA
              (emplaceA inputs f (FlakeInput.mk (some (parseFlakeRefId f)) true none [] false)) f =
              some (FlakeInput.mk (some (parseFlakeRefId f)) true none [] false) := by
            rw [lookupA_emplaceA_same, hnone]
          exact injectFormals_preserve t _ _ _ h1
        · have h1 : lookupA
              (emplaceA inputs f (FlakeInput.mk (some (parseFlakeRefId f)) true none [] false))
              name = none :=
            lookupA_emplaceA_none_other _ _ _ _ heq hnone
          have hmem2 : name ∈ t := by
            cases hmem with
            | head => exact absurd rfl heq
            | tail _ hm => exact hm
          exact ih _ _ hmem2 hself h1

/-- C7: every formal parameter of the outputs function other than self that
is not already declared in the inputs block is injected as a declared input
whose ref is the default indirect reference named after the parameter, and
inputs already declared are left unchanged (the source uses map emplace,
which never overwrites). -/
theorem c7_outputs_formals_injected :
    (∀ (inputs : List (String × FlakeInput)) (formals : List String) (name : String),
       name ∈ formals → name ≠ "self" → lookupA inputs name = none →
       lookupA (injectOutputsFormals inputs formals) name =
         some (FlakeInput.mk (some (FlakeRef.indirect name)) true none [] false)) ∧
    (∀ (inputs : List (String × FlakeInput)) (formals : List String) (name : String)
       (v : FlakeInput), lookupA inputs name = some v →
       lookupA (injectOutputsFormals inputs formals) name = some v) := by
  constructor
  · intro inputs formals name hm hs hn
    exact injectFormals_default formals inputs name hm hs hn
  · intro inputs formals name v h
    exact injectFormals_preserve formals inputs name v h

/-- C7 witness: with formals self, nixpkgs, flake-utils and nixpkgs already
declared, flake-utils is injected as the default indirect input and nixpkgs
keeps its declaration. -/
theorem c7_outputs_formals_injected_witness :
    lookupA (injectOutputsFormals c7inputs c7formals) "flake-utils" =
      some (FlakeInput.mk (some (FlakeRef.indirect "flake-utils")) true none [] false) ∧
    lookupA (injectOutputsFormals c7inputs c7formals) "nixpkgs" =
      some (FlakeInput.mk (some (FlakeRef.direct "github:NixOS/nixpkgs" true))
        true none [] false) := by
  constructor
  · exact c7_outputs_formals_injected.1 c7inputs c7formals "flake-utils"
      (by decide) (by decide) rfl
  · exact c7_outputs_formals_injected.2 c7inputs c7formals "nixpkgs"
      (FlakeInput.mk (some (FlakeRef.direct "github:NixOS/nixpkgs" true)) true none [] false)
      rfl

/-- C9: every tree Input::fetchTree returns has its NAR hash populated —
from the substituted path, from the backend, or from the store's path info —
and when the input declared an expected hash the call returns normally only
with that very hash observed on the tree. -/
theorem c9_fetchTree_narHash :
    ∀ (env : TreeEnv) (inp : FInput) (t : FTree) (oi : Option FInput),
      fetchTreeModel env inp = .ok (t, oi) →
      t.narHash.isSome = true ∧ (inp.narHash.isSome = true → t.narHash = inp.narHash) := by
  intro env inp t oi h
  unfold fetchTreeModel substituteTree at h
  cases hn : inp.narHash with
  | none =>
      simp only [hn] at h
      cases hi : env.internal with
      | error e => rw [hi] at h; exact Except.noConfusion h
      | ok pr =>
          obtain ⟨tree0, input2⟩ := pr
          simp only [hi] at h
          cases ha : (tree0.actualPath == "") <;> rw [ha] at h <;>
            cases hn0 : tree0.narHash <;>
            simp only [hn0, Bool.false_eq_true, if_false, if_true] at h <;>
            split at h <;> try exact Except.noConfusion h
          all_goals
            split at h
          any_goals exact Except.noConfusion h
          all_goals
            injection h with h1
            injection h1 with ht hoi
            subst ht
            refine ⟨by simp [hn0], fun hsome => ?_⟩
            exact absurd hsome (by simp)
  | some hh =>
      simp only [hn] at h
      cases hs : env.substOk with
      | true =>
          rw [hs] at h
          simp only [if_true] at h
          injection h with h1
          injection h1 with ht hoi
          subst ht
          exact ⟨rfl, fun _ => rfl⟩
      | false =>
          rw [hs] at h
          simp only [Bool.false_eq_true, if_false] at h
          cases hi : env.internal with
          | error e => rw [hi] at h; exact Except.noConfusion h
          | ok pr =>
              obtain ⟨tree0, input2⟩ := pr
              simp only [hi] at h
              cases ha : (tree0.actualPath == "") <;> rw [ha] at h <;>
                cases hn0 : tree0.narHash <;>
                simp only [hn0, Bool.false_eq_true, if_false, if_true] at h <;>
                split at h <;> try exact Except.noConfusion h
              all_goals
                split at h
              any_goals exact Except.noConfusion h
              all_goals
                rename_i hg1 hg2
                injection h with h1
                injection h1 with ht hoi
                subst ht
                refine ⟨by simp [hn0], fun hsome2 => ?_⟩
                simp at hg2 hg1
                have h3 : input2.narHash = some hh := hg2.symm
                have h4 := hg1 (by rw [h3]; rfl)
                rw [h3] at h4
                try rw [hn0]
                exact h4.symm

/-- C9 witness: with substitution failing and a backend tree lacking both
actual path and hash, the returned tree carries the store's hash, which
equals the declared expected hash 7. -/
theorem c9_fetchTree_narHash_witness :
    fetchTreeModel c9env c9inp = .ok (⟨"/real/sp", "sp", some 7⟩, some ⟨some 7⟩) ∧
    (FTree.mk "/real/sp" "sp" (some 7)).narHash.isSome = true ∧
    (FTree.mk "/real/sp" "sp" (some 7)).narHash = c9inp.narHash := by
  refine ⟨rfl, ?_, ?_⟩
  · exact (c9_fetchTree_narHash c9env c9inp _ _ rfl).1
  · exact (c9_fetchTree_narHash c9env c9inp _ _ rfl).2 rfl

/-- C2 amended: with allowMutable = false, any flake input that reaches the
fresh locking path (here: no usable old lock entry) with a non-immutable
reference makes computeLocks fail MutableInPureMode, and the getFlake
primitive rejects a mutable top-level reference under pure evaluation before
invoking lockFlake; lockFlake itself leaves the top reference unchecked. -/
theorem c2_amended_mutable_checks :
    (∀ (n : Nat) (env : SolveEnv) (flags : LockFlags) (oracle : Bool) (id : String)
       (r : FlakeRef) (flk : Bool) (rest : List (String × FlakeInput)) (p : InputPath)
       (oldN : Option Node) (acc : Node) (st : SolveState),
       flags.allowMutable = false → r.isImmutable = false →
       findOldLock flags oldN (p ++ [id]) id = none →
       (computeLocks env flags oracle (n + 1)
          ((id, FlakeInput.mk (some r) flk none [] false) :: rest)
          p oldN [] acc st).snd = .error .mutableInPureMode) ∧
    (∀ (fuel : Nat) (env : LockEnv) (oracle : Bool) (r : FlakeRef),
       r.isImmutable = false →
       primGetFlakeModel fuel env true oracle r = .error .mutableInPureMode) := by
  constructor
  · intro n env flags oracle id r flk rest p oldN acc st hA hImm hOld
    simp only [computeLocks, extractA, FlakeInput.follows, FlakeInput.ref, hOld, hA, hImm,
      Bool.not_false, Bool.and_self, if_true]
  · intro fuel env oracle r hImm
    simp only [primGetFlakeModel, hImm, Bool.not_false, Bool.and_true, if_true, true_and]

/-- C2 amended witness: a mutable git input under allowMutable = false fails
MutableInPureMode, and the primitive rejects the same mutable reference in
pure mode. -/
theorem c2_amended_mutable_checks_witness :
    (computeLocks stubEnv c2flags false 1
       [("x", FlakeInput.mk (some c2wRef) true none [] false)] [] none [] []
       initState).snd = .error .mutableInPureMode ∧
    primGetFlakeModel 1 c2lockEnv true false c2wRef = .error .mutableInPureMode := by
  constructor
  · exact c2_amended_mutable_checks.1 0 stubEnv c2flags false "x" c2wRef true [] [] none
      [] initState rfl rfl rfl
  · exact c2_amended_mutable_checks.2 1 c2lockEnv false c2wRef rfl

theorem computeLocks_parents :
    ∀ (n : Nat) (env : SolveEnv) (flags : LockFlags) (oracle : Bool)
      (inputs : List (String × FlakeInput)) (p : InputPath) (oldN : Option Node)
      (ovs : List (String × FlakeInput)) (acc : Node) (st : SolveState),
      ((computeLocks env flags oracle n inputs p oldN ovs acc st).fst).parents =
        st.parents := by
  intro n
  induction n with
  | zero => intro env flags oracle inputs p oldN ovs acc st; rfl
  | succ n ih =>
      intro env flags oracle inputs p oldN ovs acc st
      cases inputs with
      | nil =>
          simp only [computeLocks]
          split <;> rfl
      | cons hd tl =>
          obtain ⟨id, originalInput⟩ := hd
          simp only [computeLocks]
          repeat' split
          all_goals simp only [ih]
          all_goals first
            | rfl
            | simp [List.dropLast_concat]

/-- C5: on the fresh flake path a (possibly overridden) input reference that
already occurs on the parents stack makes the solve fail CircularImport (the
fetch happens first, the cycle check precedes the push), and the parents
stack is restored on exit from every invocation — including those whose
recursive call fails — mirroring the Finally scope guard. -/
theorem c5_circular_import :
    (∀ (n : Nat) (env : SolveEnv) (flags : LockFlags) (oracle : Bool)
       (inputs : List (String × FlakeInput)) (p : InputPath) (oldN : Option Node)
       (ovs : List (String × FlakeInput)) (acc : Node) (st : SolveState),
       ((computeLocks env flags oracle n inputs p oldN ovs acc st).fst).parents =
         st.parents) ∧
    (∀ (n : Nat) (env : SolveEnv) (flags : LockFlags) (oracle : Bool) (id : String)
       (r : FlakeRef) (rest : List (String × FlakeInput)) (p : InputPath) (acc : Node)
       (st : SolveState) (fl : Flake),
       env.getFlake flags.useRegistries r = .ok fl →
       (!flags.allowMutable && !r.isImmutable) = false →
       (st.parents.any fun x => x == r) = true →
       (computeLocks env flags oracle (n + 1)
          ((id, FlakeInput.mk (some r) true none [] false) :: rest) p none [] acc st).snd =
         .error .circularImport ∧
       ((computeLocks env flags oracle (n + 1)
          ((id, FlakeInput.mk (some r) true none [] false) :: rest) p none [] acc
          st).fst).parents = st.parents) := by
  refine ⟨computeLocks_parents, ?_⟩
  intro n env flags oracle id r rest p acc st fl hfl hg hmem
  simp only [computeLocks, extractA, FlakeInput.follows, FlakeInput.ref, FlakeInput.isFlake,
    findOldLock, hg, Bool.false_eq_true, if_false, if_true, hfl, hmem]
  exact ⟨trivial, trivial⟩

/-- C5 witness: running the solver on the cyclic pair A -> B -> A leaves the
parents stack untouched even though the solve fails inside, and the step that
re-encounters B's reference with B already on the stack fails
CircularImport. -/
theorem c5_circular_import_witness :
    ((computeLocks c5env flagsDefault false 10 c5flakeA.inputs [] none [] []
       initState).fst).parents = initState.parents ∧
    (computeLocks c5env flagsDefault false 3
       [("b", FlakeInput.mk (some c5refB) true none [] false)] ["b", "a"] none [] []
       ⟨[c5refB, c5refA], [], []⟩).snd = .error .circularImport := by
  constructor
  · exact c5_circular_import.1 10 c5env flagsDefault false c5flakeA.inputs [] none [] []
      initState
  · exact (c5_circular_import.2 2 c5env flagsDefault false "b" c5refB [] ["b", "a"] []
      ⟨[c5refB, c5refA], [], []⟩ c5flakeB rfl rfl rfl).1

/-- C8: when the computed lock root is structurally equal to the old one,
lockFlake performs no persistence effects at all — no lock file write, no
markChangedFile on the top source, no re-fetch of the top flake — and
returns the originally fetched flake unchanged. -/
theorem c8_unchanged_lock_persists_nothing :
    ∀ (fuel : Nat) (env : LockEnv) (flags : LockFlags) (oracle : Bool)
      (topRef : FlakeRef) (flake : Flake) (st1 : SolveState) (newRoot : Node),
      env.flakesEnabled = true →
      env.solve.getFlake flags.useRegistries topRef = .ok flake →
      computeLocks env.solve flags oracle fuel flake.inputs []
        (if flags.recreateLockFile then none else some flake.lockRoot)
        (overridesOfFlags flags) [] initState = (st1, .ok newRoot) →
      checkLock fuel newRoot = true →
      lockEqNode newRoot flake.lockRoot = true →
      lockFlakeModel fuel env flags oracle topRef =
        .ok { flake := flake, lockFileRoot := newRoot, effects := [],
              warnings := st1.warnings ++
                unusedUpdateWarnings flags.inputUpdates st1.updatesUsed } := by
  intro fuel env flags oracle topRef flake st1 newRoot hen hget hcomp hcheck heq
  unfold lockFlakeModel
  rw [hen, hget]
  simp only [Bool.not_true, Bool.false_eq_true, if_false]
  rw [hcomp]
  simp only [hcheck, heq, Bool.not_true, Bool.false_eq_true, if_false, if_true]

/-- C8 witness: a top flake whose single input is already locked and current
re-solves to a root equal to the old one, and lockFlake returns with no
effects. -/
theorem c8_unchanged_lock_persists_nothing_witness :
    lockEqNode c8oldRoot c8flake.lockRoot = true ∧
    lockFlakeModel 4 c8lockEnv flagsDefault false c8topRef =
      .ok { flake := c8flake, lockFileRoot := c8oldRoot, effects := [],
            warnings := [] } := by
  constructor
  · rfl
  · exact c8_unchanged_lock_persists_nothing 4 c8lockEnv flagsDefault false c8topRef
      c8flake ⟨[], [["nixpkgs"]], []⟩ c8oldRoot rfl rfl rfl rfl rfl

theorem renderEntry_length_pos (e : InputPath × FlakeRef) :
    0 < (renderEntry e).length := by
  have h1 : ("=" : String).length = 1 := rfl
  simp [renderEntry, String.length_append]
  omega

theorem glue_true_cons_length (e : InputPath × FlakeRef) (l : List String) :
    0 < (glue true (renderEntry e :: l)).length := by
  simp only [glue, String.length_append]
  have := renderEntry_length_pos e
  omega

theorem glue_true_cons_ne (e : InputPath × FlakeRef) (l : List String) :
    ¬ glue true (renderEntry e :: l) = "" := by
  intro h
  have h2 := glue_true_cons_length e l
  rw [h] at h2
  exact absurd h2 (by decide)

theorem glue_append (l1 l2 : List String) :
    ∀ f, glue f (l1 ++ l2) = glue f l1 ++ glue (f && l1.isEmpty) l2 := by
  induction l1 with
  | nil => intro f; cases f <;> rfl
  | cons a t ih =>
      intro f
      cases f <;>
        simp only [List.cons_append, glue, List.isEmpty_cons, Bool.and_false,
          Bool.false_and, String.append_assoc, List.append_eq, ih false]

theorem glue_false_eq (l : List String) (h : l ≠ []) :
    glue false l = ", " ++ glue true l := by
  cases l with
  | nil => exact absurd rfl h
  | cons a t => simp only [glue, String.append_assoc]

theorem printGo_eq :
    ∀ (n : Nat) (ovs : List (String × FlakeInput)), sizeOf ovs ≤ n →
      ∀ (p : InputPath) (acc : String) (first : Bool),
      printOvsGo ovs p acc first =
        acc ++ glue first ((collectRefsGo ovs p).map renderEntry) := by
  intro n
  induction n with
  | zero =>
      intro ovs h p acc first
      cases ovs with
      | nil => simp [printOvsGo, collectRefsGo, glue, String.append_empty]
      | cons hd tl =>
          exfalso
          simp only [List.cons.sizeOf_spec] at h
          omega
  | succ n ih =>
      intro ovs h p acc first
      cases ovs with
      | nil => simp [printOvsGo, collectRefsGo, glue, String.append_empty]
      | cons hd tl =>
          obtain ⟨id, ov⟩ := hd
          obtain ⟨oref, oflk, ofol, oovs, oabs⟩ := ov
          have hb : sizeOf oovs ≤ n ∧ sizeOf tl ≤ n := by
            simp only [List.cons.sizeOf_spec, Prod.mk.sizeOf_spec,
              FlakeInput.mk.sizeOf_spec] at h
            omega
          have ihc : printOvsGo oovs (p ++ [id]) "" true =
              glue true ((collectRefsGo oovs (p ++ [id])).map renderEntry) :=
            ih oovs hb.1 (p ++ [id]) "" true
          have iht := ih tl hb.2 p
          cases oref with
          | some r =>
              cases hc : collectRefsGo oovs (p ++ [id]) with
              | nil =>
                  rw [hc] at ihc
                  simp only [List.map_nil, glue] at ihc
                  simp only [printOvsGo, printOvsEntry, FlakeInput.ref, collectRefsGo,
                    collectRefsEntry, ihc, hc]
                  rw [iht]
                  cases first <;>
                    simp [glue, renderEntry, String.append_assoc, String.append_empty]
              | cons e tcs =>
                  rw [hc] at ihc
                  simp only [List.map_cons] at ihc
                  have hne := beq_eq_false_iff_ne.mpr
                    (glue_true_cons_ne e (List.map renderEntry tcs))
                  simp only [printOvsGo, printOvsEntry, FlakeInput.ref, collectRefsGo,
                    collectRefsEntry, ihc, hc, hne]
                  rw [iht]
                  cases first <;>
                    simp [glue, glue_append, glue_false_eq, renderEntry,
                      String.append_assoc, String.append_empty, List.map_append,
                      List.map_cons, Bool.false_and, Bool.and_false]
          | none =>
              cases hc : collectRefsGo oovs (p ++ [id]) with
              | nil =>
                  rw [hc] at ihc
                  simp only [List.map_nil, glue] at ihc
                  simp only [printOvsGo, printOvsEntry, FlakeInput.ref, collectRefsGo,
                    collectRefsEntry, ihc, hc]
                  rw [iht]
                  cases first <;>
                    simp [glue, String.append_assoc, String.append_empty]
              | cons e tcs =>
                  rw [hc] at ihc
                  simp only [List.map_cons] at ihc
                  have hne := beq_eq_false_iff_ne.mpr
                    (glue_true_cons_ne e (List.map renderEntry tcs))
                  simp only [printOvsGo, printOvsEntry, FlakeInput.ref, collectRefsGo,
                    collectRefsEntry, ihc, hc, hne]
                  rw [iht]
                  cases first <;>
                    simp [glue, glue_append, glue_false_eq, String.append_assoc,
                      String.append_empty, List.map_append, List.map_cons,
                      Bool.false_and, Bool.and_false]

/-- C10: the unused-override warning string printed after a node's inputs is
exactly the comma-joined rendering of the override entries that carry a ref,
directly or in some nested child, in visit order; hence it is empty — and no
warning is emitted — iff no entry in the remaining override tree carries a
ref anywhere, and such a leftover entry lets the solve complete normally
with no warning at all (third conjunct: a concrete solve with a ref-free
leftover override finishes with an unchanged state). -/
theorem c10_unused_override_warning :
    (∀ (ovs : List (String × FlakeInput)) (p : InputPath),
       printOverrides ovs p = glue true ((collectRefsGo ovs p).map renderEntry)) ∧
    (∀ (ovs : List (String × FlakeInput)) (p : InputPath),
       printOverrides ovs p = "" ↔ collectRefsGo ovs p = []) ∧
    computeLocks stubEnv flagsDefault false 1 [] [] none c10ovs [] initState =
      (initState, .ok []) := by
  have hmain : ∀ (ovs : List (String × FlakeInput)) (p : InputPath),
      printOverrides ovs p = glue true ((collectRefsGo ovs p).map renderEntry) :=
    fun ovs p => printGo_eq (sizeOf ovs) ovs le_rfl p "" true
  refine ⟨hmain, fun ovs p => ?_, rfl⟩
  constructor
  · intro he
    cases hcc : collectRefsGo ovs p with
    | nil => rfl
    | cons e t =>
        rw [hmain ovs p, hcc] at he
        simp only [List.map_cons] at he
        exact absurd he (glue_true_cons_ne e _)
  · intro he
    rw [hmain ovs p, he]
    rfl
